import Mathlib

/-
Verification of the swarm map-reduce core of dagelf/tinyclaw.

Shallow embedding of:
  - src/swarm/batch-splitter.ts : resolveTemplateParams, splitIntoBatches
  - src/swarm/reducer.ts        : reduceConcatenate, reduceSummarize,
                                  reduceHierarchical, buildReducePrompt
  - the worker pool module      : Semaphore, renderBatchPrompt-driven
                                  processAllBatches retry/backoff loop

External collaborators (the agent invocation `invokeAgent`, the telemetry
sink `emitEvent`, wall-clock timestamps) are modelled as oracles/omitted:
the agent call becomes a total function from the rendered prompt (or from
batch index and attempt number) to `Except String String`, so theorems
quantify over every possible behaviour of the external worker.  Telemetry
is fire-and-forget and never fails per the interface contract, so it is
not modelled.  Wall-clock durations are not modelled (duration fields are
set to 0); the backoff sleeps are recorded as explicit trace events.
-/

/-! ## Characters used by the template-resolver regexes.

Written via code points so the development stays plain ASCII-safe. -/

def lbrace : Char := Char.ofNat 123

def rbrace : Char := Char.ofNat 125

def backquote : Char := Char.ofNat 96

def quoteD : Char := Char.ofNat 34

def quoteS : Char := Char.ofNat 39

/-- JS regex `\w` character class: `[A-Za-z0-9_]`. -/
def wordChar (c : Char) : Bool :=
  (('a' ≤ c && c ≤ 'z') || ('A' ≤ c && c ≤ 'Z') || ('0' ≤ c && c ≤ '9') || c = '_')

/-- JS regex `\s` character class (the whitespace forms relevant here). -/
def jsSpace (c : Char) : Bool :=
  (c = ' ' || c = '\t' || c = '\n' || c = '\r')

/-! ## Data model (src/swarm/types.ts) -/

inductive BatchStatus where
  | pending
  | processing
  | completed
  | failed
deriving DecidableEq, Repr

/-- `SwarmBatch` from types.ts.  The `startTime`/`endTime` wall-clock
timestamp fields are environmental and not modelled. -/
structure SwarmBatch where
  index : Nat
  items : List String
  status : BatchStatus
  result : Option String := none
  error : Option String := none
  retries : Nat
deriving DecidableEq, Repr

/-- `BatchResult` from types.ts. `duration = endTime - startTime` is
wall-clock and modelled as 0. -/
structure BatchResult where
  batchIndex : Nat
  success : Bool
  result : Option String
  error : Option String
  duration : Nat
deriving DecidableEq, Repr

/-! `SWARM_DEFAULTS` from types.ts. -/

def SWARM_DEFAULTS.concurrency : Nat := 5

def SWARM_DEFAULTS.batch_size : Nat := 25

def SWARM_DEFAULTS.max_retries : Nat := 2

def SWARM_DEFAULTS.max_items : Nat := 10000

def SWARM_DEFAULTS.hierarchical_reduce_fanin : Nat := 20

/-! ## Batch splitter (src/swarm/batch-splitter.ts, `splitIntoBatches`)

The source loop is
  `for (let i = 0; i < items.length; i += size) push({index: batches.length,
     items: items.slice(i, i + size), status: 'pending', retries: 0})`.
`buildBatches s idx l` builds the batches for the remaining slice `l`
with chunk size `s + 1` (so `s = size - 1`; each chunk is
`items.slice(i, i + size)`, i.e. one head element plus `take s` more),
and `idx` is the running `batches.length`. -/

def buildBatches (s : Nat) (idx : Nat) : List String → List SwarmBatch
  | [] => []
  | x :: xs =>
    { index := idx, items := x :: xs.take s, status := BatchStatus.pending, retries := 0 }
      :: buildBatches s (idx + 1) (xs.drop s)
termination_by l => l.length
decreasing_by
  simp only [List.length_drop, List.length_cons]
  omega

/-- `splitIntoBatches(items, batchSize)`. `batchSize || SWARM_DEFAULTS.batch_size`
means a falsy (0) batch size falls back to the default 25. -/
def splitIntoBatches (items : List String) (batchSize : Nat) : List SwarmBatch :=
  let size := if batchSize = 0 then SWARM_DEFAULTS.batch_size else batchSize
  buildBatches (size - 1) 0 items

/-! ## Reducer (src/swarm/reducer.ts)

`ReduceOptions` is modelled by the fields the reduction logic reads:
the optional configured reduce prompt (`config.reduce?.prompt`), the user
message, and the resolved reduction agent invocation collapsed into a
single oracle `invoke : String → Except String String` (agent-id
resolution is deterministic and the agent call itself is the external
collaborator `invokeAgent`). -/

structure ReduceEnv where
  invoke : String → Except String String
  reducePrompt : Option String
  userMessage : String

/-- `reduceConcatenate`: single results pass through unchanged; otherwise
join with `## Batch i of N` headers and `---` dividers. -/
def reduceConcatenate (batchResults : List String) : String :=
  match batchResults with
  | [r] => r
  | _ =>
    String.intercalate "\n\n---\n\n"
      (batchResults.enum.map
        (fun p => "## Batch " ++ toString (p.1 + 1) ++ " of "
          ++ toString batchResults.length ++ "\n\n" ++ p.2))

def defaultReduceInstruction : String :=
  "Please synthesize and consolidate these results into a clear, organized summary. Highlight key findings, patterns, and any items that need attention. Remove redundancy while preserving important details."

def contextLineTop (batchCount : Nat) : String :=
  "The following are results from processing " ++ toString batchCount
    ++ " batch(es) of a large-scale task."

def contextLineGroup (level groupIndex totalGroups batchCount : Nat) : String :=
  "The following are results from group " ++ toString (groupIndex + 1) ++ " of "
    ++ toString totalGroups ++ " (reduction level " ++ toString (level + 1)
    ++ "), containing " ++ toString batchCount ++ " batch results."

/-- `buildReducePrompt(combinedResults, batchCount, options, level?, groupIndex?,
totalGroups?)`.  The three trailing optional arguments are always passed
together (by the hierarchical group pass) or all omitted (by summarize),
modelled as `grp : Option (level × groupIndex × totalGroups)`. -/
def buildReducePrompt (combinedResults : String) (batchCount : Nat) (env : ReduceEnv)
    (grp : Option (Nat × Nat × Nat)) : String :=
  let contextLine :=
    match grp with
    | none => contextLineTop batchCount
    | some (level, groupIndex, totalGroups) =>
        contextLineGroup level groupIndex totalGroups batchCount
  let instruction :=
    match env.reducePrompt with
    | some p => p ++ "\n\n" ++ contextLine
    | none => contextLine ++ "\n\n" ++ defaultReduceInstruction
  instruction ++ "\n\n" ++ ("Original task: " ++ env.userMessage) ++ "\n\n---\n\n"
    ++ combinedResults

/-- The reduce-prompt layout exactly as the specification words it:
"[custom prompt if configured, else a default synthesis instruction]
+ context sentence + Original task + divider + combined content". -/
def buildReducePromptClaimed (combinedResults : String) (batchCount : Nat) (env : ReduceEnv)
    (grp : Option (Nat × Nat × Nat)) : String :=
  let contextLine :=
    match grp with
    | none => contextLineTop batchCount
    | some (level, groupIndex, totalGroups) =>
        contextLineGroup level groupIndex totalGroups batchCount
  let instruction :=
    match env.reducePrompt with
    | some p => p
    | none => defaultReduceInstruction
  instruction ++ "\n\n" ++ contextLine ++ "\n\n" ++ ("Original task: " ++ env.userMessage)
    ++ "\n\n---\n\n" ++ combinedResults

/-- The reduce-prompt layout as amended: with a custom prompt the custom
prompt precedes the context sentence; without one the context sentence
precedes the default synthesis instruction. -/
def buildReducePromptAmended (combinedResults : String) (batchCount : Nat) (env : ReduceEnv)
    (grp : Option (Nat × Nat × Nat)) : String :=
  let contextLine :=
    match grp with
    | none => contextLineTop batchCount
    | some (level, groupIndex, totalGroups) =>
        contextLineGroup level groupIndex totalGroups batchCount
  (match env.reducePrompt with
    | some p => p ++ "\n\n" ++ contextLine
    | none => contextLine ++ "\n\n" ++ defaultReduceInstruction)
    ++ "\n\n" ++ ("Original task: " ++ env.userMessage) ++ "\n\n---\n\n" ++ combinedResults

/-- One hierarchical group pass (the body of the `groups.map` closure in
`reduceHierarchical`): summarize the group, falling back to the group's
plain concatenation if the invocation fails. `p = (groupIndex, group)`. -/
def summarizeGroup (env : ReduceEnv) (level : Nat) (totalGroups : Nat)
    (p : Nat × List String) : String :=
  let combined := reduceConcatenate p.2
  match env.invoke (buildReducePrompt combined p.2.length env (some (level, p.1, totalGroups))) with
  | Except.ok s => s
  | Except.error _ => combined

/-- Consecutive chunks of size `s + 1` (the `for (i = 0; i < len; i += fanin)
slice(i, i + fanin)` grouping loop, with `s = fanin - 1`). -/
def chunkPos {α : Type} (s : Nat) : List α → List (List α)
  | [] => []
  | x :: xs => (x :: xs.take s) :: chunkPos s (xs.drop s)
termination_by l => l.length
decreasing_by
  simp only [List.length_drop, List.length_cons]
  omega

/-
`reduceSummarize` and `reduceHierarchical` are mutually recursive in the
source with no structurally decreasing argument (summarize delegates to
hierarchical on oversized input; hierarchical's base case delegates back
to summarize on the unchanged list).  They are embedded with an explicit
`fuel` counter decremented at every mutual call; `none` means the
recursion did not finish within `fuel` unfoldings.  A result that is
`none` for every fuel value is exactly a non-terminating run of the
source functions.

The size test in the source is `combined.length / 4 > 150000` in JS
floating-point arithmetic, which holds iff `combined.length > 600000`.
-/

mutual

def reduceSummarize (fuel : Nat) (batchResults : List String) (env : ReduceEnv) :
    Option String :=
  match fuel with
  | 0 => none
  | n + 1 =>
    let combined := reduceConcatenate batchResults
    if 600000 < combined.length then
      reduceHierarchical n batchResults env 0
    else
      match env.invoke (buildReducePrompt combined batchResults.length env none) with
      | Except.ok s => some s
      | Except.error _ => some (reduceConcatenate batchResults)

def reduceHierarchical (fuel : Nat) (batchResults : List String) (env : ReduceEnv)
    (level : Nat) : Option String :=
  match fuel with
  | 0 => none
  | n + 1 =>
    if batchResults.length ≤ SWARM_DEFAULTS.hierarchical_reduce_fanin then
      reduceSummarize n batchResults env
    else
      let groups := chunkPos (SWARM_DEFAULTS.hierarchical_reduce_fanin - 1) batchResults
      let groupSummaries := groups.enum.map (summarizeGroup env level groups.length)
      if SWARM_DEFAULTS.hierarchical_reduce_fanin < groupSummaries.length then
        reduceHierarchical n groupSummaries env (level + 1)
      else
        reduceSummarize n groupSummaries env

end

/-- A single batch result whose text exceeds the 600000-character
single-pass threshold: the input on which the summarize/hierarchical
mutual recursion never terminates. -/
def oversizedSingleton : List String :=
  [String.mk (List.replicate 600001 'a')]

/-! ## Worker pool (the pool module: `Semaphore`, `processAllBatches`)

The per-batch body between `semaphore.acquire()` and `semaphore.release()`
is sequential; the concurrent interleaving of batch completions is
modelled by running the per-batch computations in an arbitrary completion
order (theorems quantify over every permutation of the batch list), which
is a superset of the orders the semaphore admits.  The external
`invokeAgent` call is an oracle `worker : batchIndex → attempt →
Except String String`; the rendered prompt is a deterministic function of
the batch, so keying the oracle by batch index quantifies over the same
behaviours. -/

/-- Observable events of one batch's retry loop: backoff sleeps and
worker invocations (the `attempt`-numbered `swarm_batch_start`). -/
inductive PoolEvent where
  | sleep (ms : Nat)
  | invoke (attempt : Nat)
deriving DecidableEq, Repr

structure AttemptOutcome where
  success : Bool
  result : Option String
  lastError : Option String
  retries : Nat
  trace : List PoolEvent
deriving DecidableEq, Repr

/-- The retry loop
`for (attempt = 0; attempt <= maxRetries; attempt++) { try { if (attempt > 0)
sleep(2000 * 2^(attempt-1)); result = invoke(attempt); success = true; break }
catch { lastError = msg; retries = attempt + 1 } }`,
embedded with `remaining = maxRetries + 1 - attempt` as the recursion
counter. -/
def attemptGo (invoke : Nat → Except String String) (attempt : Nat)
    (lastError : Option String) (retries : Nat) (trace : List PoolEvent) :
    Nat → AttemptOutcome
  | 0 =>
    { success := false, result := none, lastError := lastError, retries := retries,
      trace := trace }
  | remaining + 1 =>
    let trace := if 0 < attempt then trace ++ [PoolEvent.sleep (2000 * 2 ^ (attempt - 1))]
                 else trace
    let trace := trace ++ [PoolEvent.invoke attempt]
    match invoke attempt with
    | Except.ok r =>
      { success := true, result := some r, lastError := lastError, retries := retries,
        trace := trace }
    | Except.error e => attemptGo invoke (attempt + 1) (some e) (attempt + 1) trace remaining

def runAttempts (invoke : Nat → Except String String) (maxRetries : Nat) : AttemptOutcome :=
  attemptGo invoke 0 none 0 [] (maxRetries + 1)

/-- Number of worker invocations recorded in a trace. -/
def invokeCount (t : List PoolEvent) : Nat :=
  (t.filter fun e => match e with | PoolEvent.invoke _ => true | _ => false).length

/-- One batch through the retry loop: the batch goes
pending → processing → completed/failed and a `BatchResult` snapshot is
produced (`result`/`error` populated exactly on success/failure). -/
def processBatch (worker : Nat → Nat → Except String String) (b : SwarmBatch) :
    SwarmBatch × BatchResult :=
  let out := runAttempts (worker b.index) SWARM_DEFAULTS.max_retries
  let b' :=
    if out.success then
      { b with status := BatchStatus.completed, result := out.result, retries := out.retries }
    else
      { b with status := BatchStatus.failed, error := out.lastError, retries := out.retries }
  (b',
    { batchIndex := b.index, success := out.success,
      result := if out.success then out.result else none,
      error := if out.success then none else out.lastError,
      duration := 0 })

structure Progress where
  completed : Nat
  total : Nat
  failed : Nat
deriving DecidableEq, Repr

/-- Pool environment: the worker oracle and the optional per-batch
completion callback.  The callback is invoked synchronously and outside
any try/catch in the source, so a callback may itself fail
(`Except.error`), which the pool does not intercept. -/
structure PoolEnv where
  worker : Nat → Nat → Except String String
  onBatchComplete : Option (BatchResult → Progress → Except String Unit)

structure PoolState where
  results : List (Option BatchResult)
  batchesDone : List SwarmBatch
  completed : Nat
  failed : Nat
deriving Repr

/-- The synchronous completion block of one batch (source lines after the
retry loop): update counters, write `results[batch.index]`, then invoke
the completion callback; a callback exception escapes the pool. -/
def poolStep (env : PoolEnv) (total : Nat) (st : PoolState) (b : SwarmBatch) :
    Except String PoolState :=
  let pr := processBatch env.worker b
  let completed := if pr.2.success then st.completed + 1 else st.completed
  let failed := if pr.2.success then st.failed else st.failed + 1
  let st' : PoolState :=
    { results := st.results.set b.index (some pr.2),
      batchesDone := st.batchesDone ++ [pr.1],
      completed := completed, failed := failed }
  match env.onBatchComplete with
  | none => Except.ok st'
  | some cb =>
    match cb pr.2 { completed := completed, total := total, failed := failed } with
    | Except.ok _ => Except.ok st'
    | Except.error e => Except.error e

def runPool (env : PoolEnv) (total : Nat) : List SwarmBatch → PoolState →
    Except String PoolState
  | [], st => Except.ok st
  | b :: bs, st =>
    match poolStep env total st b with
    | Except.ok st' => runPool env total bs st'
    | Except.error e => Except.error e

/-- `processAllBatches(batches, options)`: `order` is the real-world
completion order of the batches (theorems quantify over every permutation
of `batches`); the results array starts as `new Array(batches.length)`. -/
def processAllBatches (batches : List SwarmBatch) (order : List SwarmBatch)
    (env : PoolEnv) : Except String PoolState :=
  runPool env batches.length order
    { results := List.replicate batches.length none, batchesDone := [],
      completed := 0, failed := 0 }

/-! ## Semaphore (the pool module's `Semaphore` class)

State: `current` slots in use, `queue` of waiting task ids (FIFO, head =
oldest), plus the ghost list `holders` of task ids currently between
acquire and release.  Steps mirror the class exactly:
`acquire` grants (`current++`) when `current < max`, else appends the
caller to `queue`; `release` does `current--` then, if a waiter exists,
`current++` and resumes the dequeued head. -/

structure SemState where
  max : Nat
  current : Nat
  queue : List Nat
  holders : List Nat
deriving DecidableEq, Repr

inductive SemEvent where
  | acquired (t : Nat)
  | enqueued (t : Nat)
  | released (t : Nat) (handoff : Option Nat)
deriving DecidableEq, Repr

inductive SemStep : SemState → SemEvent → SemState → Prop where
  | acquireGrant (s : SemState) (t : Nat) (h : s.current < s.max) :
      SemStep s (SemEvent.acquired t)
        { max := s.max, current := s.current + 1, queue := s.queue, holders := t :: s.holders }
  | acquireWait (s : SemState) (t : Nat) (h : ¬ s.current < s.max) :
      SemStep s (SemEvent.enqueued t)
        { max := s.max, current := s.current, queue := s.queue ++ [t], holders := s.holders }
  | releaseEmpty (s : SemState) (t : Nat) (ht : t ∈ s.holders) (hq : s.queue = []) :
      SemStep s (SemEvent.released t none)
        { max := s.max, current := s.current - 1, queue := s.queue,
          holders := s.holders.erase t }
  | releaseHandoff (s : SemState) (t w : Nat) (ws : List Nat) (ht : t ∈ s.holders)
      (hq : s.queue = w :: ws) :
      SemStep s (SemEvent.released t (some w))
        { max := s.max, current := s.current - 1 + 1, queue := ws,
          holders := w :: s.holders.erase t }

/-- Reachability from a fresh `new Semaphore(m)`. -/
inductive SemReachable (m : Nat) : SemState → Prop where
  | init : SemReachable m { max := m, current := 0, queue := [], holders := [] }
  | step {s s' : SemState} {e : SemEvent} :
      SemReachable m s → SemStep s e s' → SemReachable m s'

/-! ## Template resolver (src/swarm/batch-splitter.ts, `resolveTemplateParams`)

The JS regexes are embedded as leftmost-match scanners over `List Char`.
Greedy character classes followed by a character outside the class need no
backtracking (a shorter run would still be followed by an in-class
character), so maximal-munch `takeWhile`/`dropWhile` is exact.  After a
global-regex match the scan resumes at the end of the match (`lastIndex`):
`Go` scanners carry a `skip` counter of characters still to pass over so
the recursion stays structural. -/

/-- Matches of `/\x7b\x7b(\w+)\x7d\x7d/g`: scan for all parameter names.
`skip` characters are first passed over after a previous match. -/
def extractParamsGo : Nat → List Char → List String
  | _, [] => []
  | skip + 1, _ :: cs => extractParamsGo skip cs
  | 0, c :: cs =>
    if c = lbrace then
      match cs with
      | c2 :: cs2 =>
        if c2 = lbrace then
          let run := cs2.takeWhile wordChar
          let rest := cs2.dropWhile wordChar
          if run ≠ [] ∧ rest.take 2 = [rbrace, rbrace] then
            String.mk run :: extractParamsGo (cs.length - (rest.length - 2)) cs
          else extractParamsGo 0 cs
        else extractParamsGo 0 cs
      | [] => []
    else extractParamsGo 0 cs

def extractParams (l : List Char) : List String := extractParamsGo 0 l

/-- The value part of `/(\w+)\s*=\s*["']?([^\s"']+)["']?/`: optional
opening quote, a nonempty maximal run of non-space non-quote characters,
optional closing quote.  Returns the captured value and the remainder
after the whole match. -/
def kvValueAt (r4 : List Char) : Option (List Char × List Char) :=
  let r5 := match r4 with
            | c :: cs => if c = quoteD || c = quoteS then cs else r4
            | [] => r4
  let value := r5.takeWhile (fun c => !(jsSpace c) && !(c = quoteD) && !(c = quoteS))
  if value = [] then none
  else
    let r6 := r5.drop value.length
    let r7 := match r6 with
              | c :: cs => if c = quoteD || c = quoteS then cs else r6
              | [] => r6
    some (value, r7)

/-- A `key = value` match anchored at the start of `l`: maximal `\w+` key,
optional spaces, `=`, optional spaces, then the value part. -/
def kvMatchAt (l : List Char) : Option (List Char × List Char × List Char) :=
  let key := l.takeWhile wordChar
  if key = [] then none
  else
    match (l.dropWhile wordChar).dropWhile jsSpace with
    | c :: r3 =>
      if c = '=' then
        match kvValueAt (r3.dropWhile jsSpace) with
        | some (value, rest) => some (key, value, rest)
        | none => none
      else none
    | [] => none

/-- The `while ((kvMatch = kvRegex.exec(userMessage)) !== null)` loop:
collect `(key.toLowerCase(), value)` pairs left to right, resuming each
scan at the end of the previous match. -/
def kvScanGo : Nat → List Char → List (String × String)
  | _, [] => []
  | skip + 1, _ :: cs => kvScanGo skip cs
  | 0, c :: cs =>
    match kvMatchAt (c :: cs) with
    | some (k, v, rest) =>
      ((String.mk k).toLower, String.mk v) :: kvScanGo (cs.length - rest.length) cs
    | none => kvScanGo 0 cs

def kvScan (l : List Char) : List (String × String) := kvScanGo 0 l

/-- Object-property lookup: the latest assignment for a key wins, and the
truthiness test `if (kvMap[k])` equals `isSome` because captured values
are nonempty strings. -/
def kvLookup (pairs : List (String × String)) (k : String) : Option String :=
  ((pairs.filter (fun pr => pr.1 = k)).getLast?).map (fun pr => pr.2)

/-- Word boundary `\b` between the previous character (none = string edge)
and the current one. -/
def boundaryBefore (prev : Option Char) (c : Char) : Bool :=
  match prev with
  | none => wordChar c
  | some p => xor (wordChar p) (wordChar c)

/-- Word boundary `\b` after a final character, given the following
character (none = string edge). -/
def boundaryAfterOk (lastC : Char) (next : Option Char) : Bool :=
  match next with
  | none => wordChar lastC
  | some n => xor (wordChar lastC) (wordChar n)

/-- `[\w.-]` character class. -/
def repoChar (c : Char) : Bool := wordChar c || c = '.' || c = '-'

/-- Backtracking of the trailing `\b` of `/\b([\w.-]+\/[\w.-]+)\b/`: the
longest nonempty prefix of the maximal second run whose last character
forms a boundary with what follows it. -/
def shrinkToBoundary : List Char → Option Char → Option (List Char)
  | [], _ => none
  | p :: ps, next =>
    match (p :: ps).getLast? with
    | some lastC =>
      if boundaryAfterOk lastC next then some (p :: ps)
      else shrinkToBoundary (p :: ps).dropLast (some lastC)
    | none => none
termination_by p _ => p.length
decreasing_by
  simp only [List.length_dropLast, List.length_cons]
  omega

/-- First (leftmost) match of `/\b([\w.-]+\/[\w.-]+)\b/`, scanning with the
previous character to evaluate the leading `\b`. -/
def repoScan (prev : Option Char) : List Char → Option (List Char)
  | [] => none
  | c :: cs =>
    if boundaryBefore prev c && repoChar c then
      let part1 := c :: cs.takeWhile repoChar
      match cs.dropWhile repoChar with
      | '/' :: rest2 =>
        let part2 := rest2.takeWhile repoChar
        let rest3 := rest2.dropWhile repoChar
        match shrinkToBoundary part2 rest3.head? with
        | some p2 => some (part1 ++ '/' :: p2)
        | none => repoScan (some c) cs
      | _ => repoScan (some c) cs
    else repoScan (some c) cs

def repoMatch (l : List Char) : Option (List Char) := repoScan none l

/-- First (leftmost) match of `/\b(\d\x7b2,\x7d)\b/`: a standalone integer
of 2+ digits. -/
def limitScan (prev : Option Char) : List Char → Option (List Char)
  | [] => none
  | c :: cs =>
    if boundaryBefore prev c && c.isDigit then
      let run := c :: cs.takeWhile Char.isDigit
      let after := cs.dropWhile Char.isDigit
      if 2 ≤ run.length then
        match after.head? with
        | none => some run
        | some a => if wordChar a then limitScan (some c) cs else some run
      else limitScan (some c) cs
    else limitScan (some c) cs

def limitMatch (l : List Char) : Option (List Char) := limitScan none l

/-- First match of the backtick regex: the text between the first backtick
and the next one, provided it is nonempty. -/
def backtickMatch : List Char → Option (List Char)
  | [] => none
  | c :: cs =>
    if c = backquote then
      let run := cs.takeWhile (fun d => !(d = backquote))
      match (cs.dropWhile (fun d => !(d = backquote))).head? with
      | some _ => if run = [] then backtickMatch cs else some run
      | none => backtickMatch cs
    else backtickMatch cs

/-- The literal placeholder text for a parameter name. -/
def placeholder (p : String) : List Char :=
  lbrace :: lbrace :: (p.toList ++ [rbrace, rbrace])

/-- `String.replace` with a string pattern: replace the first occurrence
only.  (JS dollar-escape handling in the replacement is irrelevant here:
no claim concerns substituted text containing dollar patterns.) -/
def replaceFirst (pat rep : List Char) : List Char → List Char
  | [] => []
  | c :: cs =>
    if List.isPrefixOf pat (c :: cs) then rep ++ List.drop pat.length (c :: cs)
    else c :: replaceFirst pat rep cs

/-- The `for (const param of params)` resolution loop.  Branch order as in
the source: key=value map, the `repo` heuristic, the `limit` heuristic,
then — for a still-unresolved parameter — the backtick short-circuit that
returns the backtick content as the entire output. -/
def resolveLoop (kv : List (String × String)) (msg : List Char) :
    List String → List Char → List Char
  | [], resolved => resolved
  | p :: rest, resolved =>
    match kvLookup kv p.toLower with
    | some v => resolveLoop kv msg rest (replaceFirst (placeholder p) v.toList resolved)
    | none =>
      match (if p = "repo" then repoMatch msg else none) with
      | some v => resolveLoop kv msg rest (replaceFirst (placeholder p) v resolved)
      | none =>
        match (if p = "limit" then limitMatch msg else none) with
        | some v => resolveLoop kv msg rest (replaceFirst (placeholder p) v resolved)
        | none =>
          match backtickMatch msg with
          | some cmd => cmd
          | none => resolveLoop kv msg rest resolved

/-- `resolveTemplateParams(template, userMessage)`. -/
def resolveTemplateParams (template userMessage : String) : String :=
  let params := extractParams template.toList
  if params = [] then template
  else String.mk (resolveLoop (kvScan userMessage.toList) userMessage.toList params template.toList)

/-- A parameter is resolved by the loop's non-backtick branches: a
key=value entry, or the repo/limit heuristic when the name matches. -/
def paramResolves (kv : List (String × String)) (msg : List Char) (p : String) : Bool :=
  (kvLookup kv p.toLower).isSome
    || ((p == "repo") && (repoMatch msg).isSome)
    || ((p == "limit") && (limitMatch msg).isSome)

/-! # Theorems

## Batch splitter: split completeness (C1) -/

theorem buildBatches_nil (s idx : Nat) : buildBatches s idx [] = [] := by
  rw [buildBatches]

theorem buildBatches_cons (s idx : Nat) (x : String) (xs : List String) :
    buildBatches s idx (x :: xs) =
      { index := idx, items := x :: xs.take s, status := BatchStatus.pending, retries := 0 }
        :: buildBatches s (idx + 1) (xs.drop s) := by
  rw [buildBatches]

theorem buildBatches_length (s idx : Nat) (l : List String) :
    (buildBatches s idx l).length = (l.length + s) / (s + 1) := by
  induction idx, l using buildBatches.induct s with
  | case1 idx =>
    simp [buildBatches_nil, Nat.div_eq_of_lt (Nat.lt_succ_self s)]
  | case2 idx x xs ih =>
    rw [buildBatches_cons]
    simp only [List.length_cons]
    rw [ih, List.length_drop]
    have h1 : xs.length + 1 + s = xs.length + (s + 1) := by omega
    rw [h1, Nat.add_div_right _ (Nat.succ_pos s)]
    rcases Nat.le_total s xs.length with h | h
    · rw [Nat.sub_add_cancel h]
    · have e : xs.length - s = 0 := Nat.sub_eq_zero_of_le h
      rw [e, Nat.zero_add]
      have h2 : xs.length / (s + 1) = 0 := Nat.div_eq_of_lt (by omega)
      have h3 : s / (s + 1) = 0 := Nat.div_eq_of_lt (by omega)
      rw [h2, h3]

theorem buildBatches_flatten (s idx : Nat) (l : List String) :
    ((buildBatches s idx l).map SwarmBatch.items).flatten = l := by
  induction idx, l using buildBatches.induct s with
  | case1 idx => simp [buildBatches_nil]
  | case2 idx x xs ih =>
    rw [buildBatches_cons]
    simp only [List.map_cons, List.flatten_cons, ih]
    simp only [List.cons_append]
    rw [List.take_append_drop]

theorem buildBatches_get? (s : Nat) : ∀ (idx : Nat) (l : List String) (k : Nat)
    (b : SwarmBatch), (buildBatches s idx l).get? k = some b →
      b.index = idx + k ∧ b.status = BatchStatus.pending ∧ b.retries = 0 ∧
      b.items.length ≤ s + 1 ∧
      (k + 1 < (buildBatches s idx l).length → b.items.length = s + 1) := by
  intro idx l
  induction idx, l using buildBatches.induct s with
  | case1 idx =>
    intro k b h
    rw [buildBatches_nil] at h
    simp at h
  | case2 idx x xs ih =>
    intro k b h
    rw [buildBatches_cons] at h ⊢
    cases k with
    | zero =>
      rw [List.get?_cons_zero] at h
      injection h with h
      subst h
      refine ⟨by simp, rfl, rfl, ?_, ?_⟩
      · simp only [List.length_cons, List.length_take]
        omega
      · intro hfull
        simp only [List.length_cons] at hfull
        rw [buildBatches_length, List.length_drop] at hfull
        have h2 : 1 * (s + 1) ≤ xs.length - s + s :=
          (Nat.le_div_iff_mul_le (by omega : 0 < s + 1)).mp (by omega)
        simp only [List.length_cons, List.length_take]
        omega
    | succ j =>
      rw [List.get?_cons_succ] at h
      have hh := ih j b h
      refine ⟨by rw [hh.1]; omega, hh.2.1, hh.2.2.1, hh.2.2.2.1, ?_⟩
      intro hfull
      apply hh.2.2.2.2
      simp only [List.length_cons] at hfull
      omega

/-- C1: for every non-empty item list of length L and batch size B ≥ 1,
`splitIntoBatches` returns exactly ceil(L/B) = (L + B - 1) / B batches;
every batch holds at most B items and every batch except possibly the
last holds exactly B; batch k carries index k, status pending and
retries 0; and concatenating all batches' items in index order
reproduces the original list exactly. -/
theorem splitIntoBatches_split_completeness (items : List String) (B : Nat)
    (hB : 1 ≤ B) (hne : items ≠ []) :
    (splitIntoBatches items B).length = (items.length + B - 1) / B ∧
    (∀ (k : Nat) (b : SwarmBatch), (splitIntoBatches items B).get? k = some b →
      b.index = k ∧ b.status = BatchStatus.pending ∧ b.retries = 0 ∧
      b.items.length ≤ B ∧
      (k + 1 < (splitIntoBatches items B).length → b.items.length = B)) ∧
    ((splitIntoBatches items B).map SwarmBatch.items).flatten = items := by
  have hB0 : B ≠ 0 := by omega
  have hsz : splitIntoBatches items B = buildBatches (B - 1) 0 items := by
    simp [splitIntoBatches, hB0]
  have hs1 : B - 1 + 1 = B := by omega
  rw [hsz]
  refine ⟨?_, ?_, buildBatches_flatten (B - 1) 0 items⟩
  · rw [buildBatches_length, hs1]
    congr 1
    omega
  · intro k b h
    have hh := buildBatches_get? (B - 1) 0 items k b h
    rw [hs1] at hh
    exact ⟨by rw [hh.1]; omega, hh.2.1, hh.2.2.1, hh.2.2.2.1, hh.2.2.2.2⟩

theorem splitIntoBatches_split_completeness_witness :
    (1 ≤ 2 ∧ (["a", "b", "c"] : List String) ≠ []) ∧
    ((splitIntoBatches ["a", "b", "c"] 2).length = (3 + 2 - 1) / 2 ∧
      (∀ (k : Nat) (b : SwarmBatch), (splitIntoBatches ["a", "b", "c"] 2).get? k = some b →
        b.index = k ∧ b.status = BatchStatus.pending ∧ b.retries = 0 ∧
        b.items.length ≤ 2 ∧
        (k + 1 < (splitIntoBatches ["a", "b", "c"] 2).length → b.items.length = 2)) ∧
      ((splitIntoBatches ["a", "b", "c"] 2).map SwarmBatch.items).flatten = ["a", "b", "c"]) :=
  ⟨⟨by decide, by decide⟩,
    splitIntoBatches_split_completeness ["a", "b", "c"] 2 (by decide) (by decide)⟩

/-! ## Reducer: prompt layout (C9), summarize single pass (C7),
hierarchical fan-in (C8), non-termination of the mutual recursion (C10) -/

/-- C9 counterexample: with no custom reduce prompt configured the code
emits the context sentence before the default synthesis instruction, so
the built prompt differs from the claimed
instruction-then-context-sentence layout already on a one-batch input. -/
theorem buildReducePrompt_claimed_order_counterexample :
    buildReducePrompt "c" 1
        { invoke := fun _ => Except.ok "", reducePrompt := none, userMessage := "t" } none ≠
      buildReducePromptClaimed "c" 1
        { invoke := fun _ => Except.ok "", reducePrompt := none, userMessage := "t" } none := by
  decide

/-- C9 (amended): every reduce prompt consists, in order, of: the custom
configured prompt followed by the context sentence when a custom prompt is
present, otherwise the context sentence followed by the default synthesis
instruction; then the original-task line; then a divider; then the
combined content — with the top-level or group-level context sentence
according to the call site. -/
theorem buildReducePrompt_layout (c : String) (n : Nat) (env : ReduceEnv)
    (grp : Option (Nat × Nat × Nat)) :
    buildReducePrompt c n env grp = buildReducePromptAmended c n env grp := by
  rcases env with ⟨inv, rp, um⟩
  cases rp <;> rfl

/-- C7: `reduceSummarize` first builds the concatenated form; if its
length exceeds the 600000-character threshold (length/4 > 150000 tokens)
it delegates entirely to hierarchical reduction; otherwise it invokes the
reduction worker once on the reduce prompt, returns its output on
success, and falls back to the plain concatenation if the invocation
fails — never propagating the worker error. -/
theorem reduceSummarize_single_pass (env : ReduceEnv) (results : List String) (n : Nat) :
    (600000 < (reduceConcatenate results).length →
      reduceSummarize (n + 1) results env = reduceHierarchical n results env 0) ∧
    (¬ 600000 < (reduceConcatenate results).length →
      (∀ s, env.invoke (buildReducePrompt (reduceConcatenate results) results.length env none)
          = Except.ok s → reduceSummarize (n + 1) results env = some s) ∧
      (∀ e, env.invoke (buildReducePrompt (reduceConcatenate results) results.length env none)
          = Except.error e →
        reduceSummarize (n + 1) results env = some (reduceConcatenate results))) := by
  refine ⟨fun hbig => ?_, fun hsmall => ⟨fun s hs => ?_, fun e he => ?_⟩⟩
  · rw [reduceSummarize]
    simp [hbig]
  · rw [reduceSummarize]
    simp [hsmall, hs]
  · rw [reduceSummarize]
    simp [hsmall, he]

theorem reduceSummarize_single_pass_witness :
    (¬ 600000 < (reduceConcatenate ["a", "b"]).length) ∧
    reduceSummarize 1 ["a", "b"]
        { invoke := fun _ => Except.error "boom", reducePrompt := none, userMessage := "t" }
      = some (reduceConcatenate ["a", "b"]) :=
  ⟨by decide,
    ((reduceSummarize_single_pass
        { invoke := fun _ => Except.error "boom", reducePrompt := none, userMessage := "t" }
        ["a", "b"] 0).2 (by decide)).2 "boom" rfl⟩

theorem chunkPos_nil {α : Type} (s : Nat) : chunkPos s ([] : List α) = [] := by
  rw [chunkPos]

theorem chunkPos_cons {α : Type} (s : Nat) (x : α) (xs : List α) :
    chunkPos s (x :: xs) = (x :: xs.take s) :: chunkPos s (xs.drop s) := by
  rw [chunkPos]

theorem chunkPos_ne_nil {α : Type} (s : Nat) (l : List α) (h : l ≠ []) :
    chunkPos s l = l.take (s + 1) :: chunkPos s (l.drop (s + 1)) := by
  cases l with
  | nil => exact absurd rfl h
  | cons x xs =>
    rw [chunkPos_cons]
    rw [List.take_succ_cons, List.drop_succ_cons]

theorem chunkPos_of_length_45 {α : Type} (l : List α) (h : l.length = 45) :
    chunkPos 19 l = [l.take 20, (l.drop 20).take 20, (l.drop 20).drop 20] := by
  have h0 : l ≠ [] := by intro e; rw [e] at h; simp at h
  have hd1 : (l.drop 20).length = 25 := by rw [List.length_drop, h]
  have h1 : l.drop 20 ≠ [] := by
    intro e; rw [e] at hd1; simp at hd1
  have hd2 : ((l.drop 20).drop 20).length = 5 := by rw [List.length_drop, hd1]
  have h2 : (l.drop 20).drop 20 ≠ [] := by
    intro e; rw [e] at hd2; simp at hd2
  rw [chunkPos_ne_nil 19 l h0, chunkPos_ne_nil 19 (l.drop 20) h1,
    chunkPos_ne_nil 19 ((l.drop 20).drop 20) h2]
  have h3 : ((l.drop 20).drop 20).take 20 = (l.drop 20).drop 20 :=
    List.take_of_length_le (by omega)
  have h4 : ((l.drop 20).drop 20).drop 20 = [] :=
    List.drop_eq_nil_of_le (by omega)
  rw [h3, h4, chunkPos_nil]

/-- C8: with the default fan-in 20, `reduceHierarchical` on 15 results
delegates directly to `reduceSummarize` with no grouping; on 45 results
it forms exactly 3 consecutive groups of sizes 20, 20 and 5, produces one
summary per group via `summarizeGroup` (a failed group falling back to
that group's plain concatenation, independently of its siblings), and
since 3 ≤ 20 performs one final `reduceSummarize` pass over the 3 group
summaries. -/
theorem reduceHierarchical_fanin_cases (env : ReduceEnv) (n lvl : Nat)
    (rs15 rs45 : List String) (h15 : rs15.length = 15) (h45 : rs45.length = 45) :
    reduceHierarchical (n + 1) rs15 env lvl = reduceSummarize n rs15 env ∧
    (chunkPos 19 rs45).map List.length = [20, 20, 5] ∧
    reduceHierarchical (n + 1) rs45 env 0 =
      reduceSummarize n ((chunkPos 19 rs45).enum.map (summarizeGroup env 0 3)) env ∧
    (∀ p ∈ (chunkPos 19 rs45).enum,
      (∀ s, env.invoke (buildReducePrompt (reduceConcatenate p.2) p.2.length env
          (some (0, p.1, 3))) = Except.ok s → summarizeGroup env 0 3 p = s) ∧
      (∀ e, env.invoke (buildReducePrompt (reduceConcatenate p.2) p.2.length env
          (some (0, p.1, 3))) = Except.error e →
        summarizeGroup env 0 3 p = reduceConcatenate p.2)) := by
  have hg := chunkPos_of_length_45 rs45 h45
  have hglen : (chunkPos 19 rs45).length = 3 := by rw [hg]; rfl
  refine ⟨?_, ?_, ?_, ?_⟩
  · rw [reduceHierarchical]
    simp [SWARM_DEFAULTS.hierarchical_reduce_fanin, h15]
  · rw [hg]
    simp only [List.map_cons, List.map_nil, List.length_take, List.length_drop, h45]
    norm_num
  · rw [reduceHierarchical]
    simp only [SWARM_DEFAULTS.hierarchical_reduce_fanin, h45]
    norm_num
    simp only [List.length_map, List.enum_length, hglen]
    norm_num
  · intro p _
    constructor
    · intro s hs
      rw [summarizeGroup]
      simp [hs]
    · intro e he
      rw [summarizeGroup]
      simp [he]

theorem reduceHierarchical_fanin_cases_witness :
    ((List.replicate 15 "a" : List String).length = 15 ∧
      (List.replicate 45 "b" : List String).length = 45) ∧
    (reduceHierarchical 2 (List.replicate 15 "a")
        { invoke := fun _ => Except.error "x", reducePrompt := none, userMessage := "t" } 0 =
      reduceSummarize 1 (List.replicate 15 "a")
        { invoke := fun _ => Except.error "x", reducePrompt := none, userMessage := "t" } ∧
    (chunkPos 19 (List.replicate 45 "b")).map List.length = [20, 20, 5] ∧
    reduceHierarchical 2 (List.replicate 45 "b")
        { invoke := fun _ => Except.error "x", reducePrompt := none, userMessage := "t" } 0 =
      reduceSummarize 1 ((chunkPos 19 (List.replicate 45 "b")).enum.map
        (summarizeGroup
          { invoke := fun _ => Except.error "x", reducePrompt := none, userMessage := "t" } 0 3))
        { invoke := fun _ => Except.error "x", reducePrompt := none, userMessage := "t" } ∧
    (∀ p ∈ (chunkPos 19 (List.replicate 45 "b")).enum,
      (∀ s, ReduceEnv.invoke
          { invoke := fun _ => Except.error "x", reducePrompt := none, userMessage := "t" }
          (buildReducePrompt (reduceConcatenate p.2) p.2.length
            { invoke := fun _ => Except.error "x", reducePrompt := none, userMessage := "t" }
            (some (0, p.1, 3))) = Except.ok s →
        summarizeGroup
          { invoke := fun _ => Except.error "x", reducePrompt := none, userMessage := "t" }
          0 3 p = s) ∧
      (∀ e, ReduceEnv.invoke
          { invoke := fun _ => Except.error "x", reducePrompt := none, userMessage := "t" }
          (buildReducePrompt (reduceConcatenate p.2) p.2.length
            { invoke := fun _ => Except.error "x", reducePrompt := none, userMessage := "t" }
            (some (0, p.1, 3))) = Except.error e →
        summarizeGroup
          { invoke := fun _ => Except.error "x", reducePrompt := none, userMessage := "t" }
          0 3 p = reduceConcatenate p.2))) :=
  ⟨⟨by simp, by simp⟩,
    reduceHierarchical_fanin_cases
      { invoke := fun _ => Except.error "x", reducePrompt := none, userMessage := "t" }
      1 0 (List.replicate 15 "a") (List.replicate 45 "b") (by simp) (by simp)⟩

theorem reduce_mutual_no_fuel (n : Nat) : ∀ (env : ReduceEnv) (results : List String)
    (lvl : Nat), results.length ≤ 20 → 600000 < (reduceConcatenate results).length →
    reduceSummarize n results env = none ∧ reduceHierarchical n results env lvl = none := by
  induction n with
  | zero =>
    intro env results lvl h1 h2
    exact ⟨by rw [reduceSummarize], by rw [reduceHierarchical]⟩
  | succ n ih =>
    intro env results lvl h1 h2
    constructor
    · rw [reduceSummarize]
      simp only [h2, if_true]
      exact (ih env results 0 h1 h2).2
    · rw [reduceHierarchical]
      simp only [SWARM_DEFAULTS.hierarchical_reduce_fanin, h1, if_true]
      exact (ih env results lvl h1 h2).1

/-- C10: the summarize/hierarchical mutual recursion does NOT terminate on
`oversizedSingleton` (a single batch result of 600001 characters, hence
at most fan-in many results whose concatenated form exceeds 600000
characters): for every fuel bound, every worker behaviour and every
level, the unfolding is exhausted without producing a result —
`reduceSummarize` delegates to `reduceHierarchical`, whose base case
delegates back to `reduceSummarize` on the unchanged list, forever.
This refutes termination on such inputs. -/
theorem reduce_nontermination_on_oversized (n : Nat) (env : ReduceEnv) (lvl : Nat) :
    reduceSummarize n oversizedSingleton env = none ∧
    reduceHierarchical n oversizedSingleton env lvl = none := by
  have hlen1 : oversizedSingleton.length = 1 := rfl
  have hlen : oversizedSingleton.length ≤ 20 := by rw [hlen1]; omega
  have hbig : 600000 < (reduceConcatenate oversizedSingleton).length := by
    have h1 : reduceConcatenate oversizedSingleton = String.mk (List.replicate 600001 'a') :=
      rfl
    have h2 : (String.mk (List.replicate 600001 'a')).length =
        (List.replicate 600001 'a').length := rfl
    rw [h1, h2, List.length_replicate]
    omega
  exact reduce_mutual_no_fuel n env oversizedSingleton lvl hlen hbig

/-! ## Template resolver: backtick short-circuit (C6) -/

theorem resolveLoop_backtick (kv : List (String × String)) (msg : List Char)
    (p : String) (post : List String) (cmd : List Char)
    (hbt : backtickMatch msg = some cmd) :
    ∀ (pre : List String) (resolved : List Char),
      (∀ q ∈ pre, paramResolves kv msg q = true) →
      paramResolves kv msg p = false →
      resolveLoop kv msg (pre ++ p :: post) resolved = cmd := by
  intro pre
  induction pre with
  | nil =>
    intro resolved _ hp
    simp only [List.nil_append]
    rw [resolveLoop]
    cases hk : kvLookup kv p.toLower with
    | some v => exfalso; simp [paramResolves, hk] at hp
    | none =>
      simp only [hk]
      cases hrm : (if p = "repo" then repoMatch msg else none) with
      | some v =>
        exfalso
        by_cases hr : p = "repo"
        · subst hr
          simp only [if_true] at hrm
          simp [paramResolves, hk, hrm] at hp
        · simp [hr] at hrm
      | none =>
        simp only [hrm]
        cases hlm : (if p = "limit" then limitMatch msg else none) with
        | some v =>
          exfalso
          by_cases hl : p = "limit"
          · subst hl
            simp only [if_true] at hlm
            simp [paramResolves, hk, hlm] at hp
          · simp [hl] at hlm
        | none => simp only [hlm, hbt]
  | cons q pre' ih =>
    intro resolved hpre hp
    have hq := hpre q (List.mem_cons_self q pre')
    have htail : ∀ r ∈ pre', paramResolves kv msg r = true :=
      fun r hr => hpre r (List.mem_cons_of_mem q hr)
    simp only [List.cons_append]
    rw [resolveLoop]
    cases hk : kvLookup kv q.toLower with
    | some v =>
      simp only [hk]
      exact ih _ htail hp
    | none =>
      simp only [hk]
      cases hrm : (if q = "repo" then repoMatch msg else none) with
      | some v =>
        simp only [hrm]
        exact ih _ htail hp
      | none =>
        simp only [hrm]
        cases hlm : (if q = "limit" then limitMatch msg else none) with
        | some v =>
          simp only [hlm]
          exact ih _ htail hp
        | none =>
          exfalso
          by_cases hr : q = "repo"
          · subst hr
            simp only [if_true] at hrm
            simp [paramResolves, hk, hrm] at hq
          · by_cases hl : q = "limit"
            · subst hl
              simp only [if_true] at hlm
              simp [paramResolves, hk, hlm] at hq
            · simp [paramResolves, hk, hr, hl] at hq

/-- C6: if, in iteration order over the template's parameters, every
parameter before `p` is resolved (by a key=value token or the repo/limit
heuristics), `p` is resolved by none of them, and the free text contains
a backtick-delimited substring, then `resolveTemplateParams` returns that
backtick substring verbatim as its entire output, abandoning the rest of
the template and all remaining parameters. -/
theorem resolveTemplateParams_backtick_shortcircuit (template userMessage : String)
    (pre post : List String) (p : String) (cmd : List Char)
    (hparams : extractParams template.toList = pre ++ p :: post)
    (hpre : ∀ q ∈ pre,
      paramResolves (kvScan userMessage.toList) userMessage.toList q = true)
    (hp : paramResolves (kvScan userMessage.toList) userMessage.toList p = false)
    (hbt : backtickMatch userMessage.toList = some cmd) :
    resolveTemplateParams template userMessage = String.mk cmd := by
  have hne : extractParams template.toList ≠ [] := by
    rw [hparams]; simp
  rw [resolveTemplateParams]
  simp only [hparams]
  rw [if_neg (by rw [← hparams]; exact hne)]
  rw [resolveLoop_backtick (kvScan userMessage.toList) userMessage.toList p post cmd hbt
    pre template.toList hpre hp]

theorem resolveTemplateParams_backtick_shortcircuit_witness :
    (extractParams ("run \x7b\x7ba\x7d\x7d" : String).toList = [] ++ "a" :: [] ∧
      (∀ q ∈ ([] : List String),
        paramResolves (kvScan ("do `ls -la` now" : String).toList)
          ("do `ls -la` now" : String).toList q = true) ∧
      paramResolves (kvScan ("do `ls -la` now" : String).toList)
        ("do `ls -la` now" : String).toList "a" = false ∧
      backtickMatch ("do `ls -la` now" : String).toList = some ("ls -la" : String).toList) ∧
    resolveTemplateParams "run \x7b\x7ba\x7d\x7d" "do `ls -la` now" =
      String.mk ("ls -la" : String).toList :=
  ⟨⟨by decide, by decide, by decide, by decide⟩,
    resolveTemplateParams_backtick_shortcircuit "run \x7b\x7ba\x7d\x7d" "do `ls -la` now"
      [] [] "a" ("ls -la" : String).toList (by decide) (by decide) (by decide) (by decide)⟩

/-! ## Worker pool: retry/backoff semantics (C3) -/

theorem runAttempts_ok0 (invoke : Nat → Except String String) (r : String)
    (h0 : invoke 0 = Except.ok r) :
    runAttempts invoke 2 =
      { success := true, result := some r, lastError := none, retries := 0,
        trace := [PoolEvent.invoke 0] } := by
  simp [runAttempts, attemptGo, h0]

theorem runAttempts_ok1 (invoke : Nat → Except String String) (e0 r : String)
    (h0 : invoke 0 = Except.error e0) (h1 : invoke 1 = Except.ok r) :
    runAttempts invoke 2 =
      { success := true, result := some r, lastError := some e0, retries := 1,
        trace := [PoolEvent.invoke 0, PoolEvent.sleep 2000, PoolEvent.invoke 1] } := by
  simp [runAttempts, attemptGo, h0, h1]

theorem runAttempts_ok2 (invoke : Nat → Except String String) (e0 e1 r : String)
    (h0 : invoke 0 = Except.error e0) (h1 : invoke 1 = Except.error e1)
    (h2 : invoke 2 = Except.ok r) :
    runAttempts invoke 2 =
      { success := true, result := some r, lastError := some e1, retries := 2,
        trace := [PoolEvent.invoke 0, PoolEvent.sleep 2000, PoolEvent.invoke 1,
          PoolEvent.sleep 4000, PoolEvent.invoke 2] } := by
  simp [runAttempts, attemptGo, h0, h1, h2]

theorem runAttempts_fail (invoke : Nat → Except String String) (e0 e1 e2 : String)
    (h0 : invoke 0 = Except.error e0) (h1 : invoke 1 = Except.error e1)
    (h2 : invoke 2 = Except.error e2) :
    runAttempts invoke 2 =
      { success := false, result := none, lastError := some e2, retries := 3,
        trace := [PoolEvent.invoke 0, PoolEvent.sleep 2000, PoolEvent.invoke 1,
          PoolEvent.sleep 4000, PoolEvent.invoke 2] } := by
  simp [runAttempts, attemptGo, h0, h1, h2]

theorem runAttempts_trace_cases (invoke : Nat → Except String String) :
    (runAttempts invoke 2).trace = [PoolEvent.invoke 0] ∨
    (runAttempts invoke 2).trace =
      [PoolEvent.invoke 0, PoolEvent.sleep 2000, PoolEvent.invoke 1] ∨
    (runAttempts invoke 2).trace =
      [PoolEvent.invoke 0, PoolEvent.sleep 2000, PoolEvent.invoke 1,
        PoolEvent.sleep 4000, PoolEvent.invoke 2] := by
  cases h0 : invoke 0 with
  | ok r => exact Or.inl (by rw [runAttempts_ok0 invoke r h0])
  | error e0 =>
    cases h1 : invoke 1 with
    | ok r => exact Or.inr (Or.inl (by rw [runAttempts_ok1 invoke e0 r h0 h1]))
    | error e1 =>
      cases h2 : invoke 2 with
      | ok r => exact Or.inr (Or.inr (by rw [runAttempts_ok2 invoke e0 e1 r h0 h1 h2]))
      | error e2 => exact Or.inr (Or.inr (by rw [runAttempts_fail invoke e0 e1 e2 h0 h1 h2]))

theorem processBatch_terminal (w : Nat → Nat → Except String String) (b : SwarmBatch) :
    (processBatch w b).1.status = BatchStatus.completed ∨
    (processBatch w b).1.status = BatchStatus.failed := by
  cases hs : (runAttempts (w b.index) SWARM_DEFAULTS.max_retries).success with
  | true => exact Or.inl (by simp [processBatch, hs])
  | false => exact Or.inr (by simp [processBatch, hs])

/-- C3: each batch invokes the worker at most max_retries + 1 = 3 times,
sleeping 2000·2^(k-1) ms before retry attempt k (2000 ms before attempt
1, 4000 ms before attempt 2); a worker failing twice then succeeding
leaves the batch completed with retries = 2 and the third attempt's
result; a worker that always fails leaves the batch failed after exactly
3 attempts with the last error message retained; and every batch —
whatever the worker does — still reaches a terminal state. -/
theorem processBatch_retry_semantics (worker : Nat → Nat → Except String String)
    (b : SwarmBatch) :
    ((runAttempts (worker b.index) SWARM_DEFAULTS.max_retries).trace = [PoolEvent.invoke 0] ∨
     (runAttempts (worker b.index) SWARM_DEFAULTS.max_retries).trace =
       [PoolEvent.invoke 0, PoolEvent.sleep 2000, PoolEvent.invoke 1] ∨
     (runAttempts (worker b.index) SWARM_DEFAULTS.max_retries).trace =
       [PoolEvent.invoke 0, PoolEvent.sleep 2000, PoolEvent.invoke 1,
         PoolEvent.sleep 4000, PoolEvent.invoke 2]) ∧
    invokeCount (runAttempts (worker b.index) SWARM_DEFAULTS.max_retries).trace ≤
      SWARM_DEFAULTS.max_retries + 1 ∧
    (∀ e0 e1 r, worker b.index 0 = Except.error e0 → worker b.index 1 = Except.error e1 →
      worker b.index 2 = Except.ok r →
      (processBatch worker b).1.status = BatchStatus.completed ∧
      (processBatch worker b).1.retries = 2 ∧
      (processBatch worker b).1.result = some r) ∧
    (∀ e0 e1 e2, worker b.index 0 = Except.error e0 → worker b.index 1 = Except.error e1 →
      worker b.index 2 = Except.error e2 →
      (processBatch worker b).1.status = BatchStatus.failed ∧
      (processBatch worker b).1.error = some e2 ∧
      (processBatch worker b).1.retries = 3 ∧
      invokeCount (runAttempts (worker b.index) SWARM_DEFAULTS.max_retries).trace = 3) ∧
    (∀ (w : Nat → Nat → Except String String) (b' : SwarmBatch),
      (processBatch w b').1.status = BatchStatus.completed ∨
      (processBatch w b').1.status = BatchStatus.failed) := by
  refine ⟨runAttempts_trace_cases (worker b.index), ?_, ?_, ?_, processBatch_terminal⟩
  · rcases runAttempts_trace_cases (worker b.index) with h | h | h <;>
      simp [SWARM_DEFAULTS.max_retries, h, invokeCount]
  · intro e0 e1 r h0 h1 h2
    have hr := runAttempts_ok2 (worker b.index) e0 e1 r h0 h1 h2
    refine ⟨?_, ?_, ?_⟩ <;>
      simp [processBatch, SWARM_DEFAULTS.max_retries, hr]
  · intro e0 e1 e2 h0 h1 h2
    have hr := runAttempts_fail (worker b.index) e0 e1 e2 h0 h1 h2
    refine ⟨?_, ?_, ?_, ?_⟩ <;>
      simp [processBatch, SWARM_DEFAULTS.max_retries, hr, invokeCount]

theorem processBatch_retry_semantics_witness :
    ((processBatch (fun _ k => if k = 0 then Except.error "e0"
        else if k = 1 then Except.error "e1" else Except.ok "r")
        ⟨0, ["i"], BatchStatus.pending, none, none, 0⟩).1.status = BatchStatus.completed ∧
      (processBatch (fun _ k => if k = 0 then Except.error "e0"
        else if k = 1 then Except.error "e1" else Except.ok "r")
        ⟨0, ["i"], BatchStatus.pending, none, none, 0⟩).1.retries = 2 ∧
      (processBatch (fun _ k => if k = 0 then Except.error "e0"
        else if k = 1 then Except.error "e1" else Except.ok "r")
        ⟨0, ["i"], BatchStatus.pending, none, none, 0⟩).1.result = some "r") ∧
    ((processBatch (fun _ _ => Except.error "e")
        ⟨0, ["i"], BatchStatus.pending, none, none, 0⟩).1.status = BatchStatus.failed ∧
      (processBatch (fun _ _ => Except.error "e")
        ⟨0, ["i"], BatchStatus.pending, none, none, 0⟩).1.error = some "e" ∧
      (processBatch (fun _ _ => Except.error "e")
        ⟨0, ["i"], BatchStatus.pending, none, none, 0⟩).1.retries = 3 ∧
      invokeCount (runAttempts ((fun (_ k : Nat) => Except.error "e") 0)
        SWARM_DEFAULTS.max_retries).trace = 3) :=
  ⟨(processBatch_retry_semantics (fun _ k => if k = 0 then Except.error "e0"
      else if k = 1 then Except.error "e1" else Except.ok "r")
      ⟨0, ["i"], BatchStatus.pending, none, none, 0⟩).2.2.1 "e0" "e1" "r" rfl rfl rfl,
    (processBatch_retry_semantics (fun _ _ => Except.error "e")
      ⟨0, ["i"], BatchStatus.pending, none, none, 0⟩).2.2.2.1 "e" "e" "e" rfl rfl rfl⟩

/-! ## Worker pool: overall resolution (C4) and index-stable results (C2) -/

theorem poolStep_ok_shape (env : PoolEnv) (total : Nat) (st : PoolState) (b : SwarmBatch)
    (st' : PoolState) (h : poolStep env total st b = Except.ok st') :
    st'.results = st.results.set b.index (some (processBatch env.worker b).2) ∧
    st'.batchesDone = st.batchesDone ++ [(processBatch env.worker b).1] ∧
    st'.completed + st'.failed = st.completed + st.failed + 1 := by
  simp only [poolStep] at h
  split at h
  · injection h with h
    subst h
    refine ⟨rfl, rfl, ?_⟩
    cases hs : (processBatch env.worker b).2.success <;> simp [hs] <;> omega
  · split at h
    · injection h with h
      subst h
      refine ⟨rfl, rfl, ?_⟩
      cases hs : (processBatch env.worker b).2.success <;> simp [hs] <;> omega
    · simp at h

theorem poolStep_ok_of_cb_ok (env : PoolEnv)
    (hcb : ∀ cb, env.onBatchComplete = some cb → ∀ r pr, cb r pr = Except.ok ())
    (total : Nat) (st : PoolState) (b : SwarmBatch) :
    ∃ st', poolStep env total st b = Except.ok st' := by
  simp only [poolStep]
  cases hc : env.onBatchComplete with
  | none => exact ⟨_, rfl⟩
  | some cb =>
    have hcb' := hcb cb hc
    simp only [hcb']
    exact ⟨_, rfl⟩

theorem runPool_ok_of_cb_ok (env : PoolEnv)
    (hcb : ∀ cb, env.onBatchComplete = some cb → ∀ r pr, cb r pr = Except.ok ())
    (total : Nat) :
    ∀ (todo : List SwarmBatch) (st : PoolState),
      ∃ st', runPool env total todo st = Except.ok st' ∧
        st'.completed + st'.failed = st.completed + st.failed + todo.length ∧
        st'.batchesDone.length = st.batchesDone.length + todo.length ∧
        (∀ b ∈ st'.batchesDone, b ∈ st.batchesDone ∨
          (b.status = BatchStatus.completed ∨ b.status = BatchStatus.failed)) := by
  intro todo
  induction todo with
  | nil =>
    intro st
    exact ⟨st, by rw [runPool], by simp, by simp, fun b hb => Or.inl hb⟩
  | cons b bs ih =>
    intro st
    obtain ⟨st1, h1⟩ := poolStep_ok_of_cb_ok env hcb total st b
    obtain ⟨hres, hdone, hcount⟩ := poolStep_ok_shape env total st b st1 h1
    obtain ⟨st', h', hcount', hlen', hmem'⟩ := ih st1
    refine ⟨st', ?_, ?_, ?_, ?_⟩
    · rw [runPool, h1]
      exact h'
    · rw [hcount', hcount]
      simp [List.length_cons]
      omega
    · rw [hlen', hdone]
      simp [List.length_append, List.length_cons]
      omega
    · intro b' hb'
      rcases hmem' b' hb' with hin | hterm
      · rw [hdone] at hin
        rcases List.mem_append.mp hin with hin' | hin'
        · exact Or.inl hin'
        · have hb'' : b' = (processBatch env.worker b).1 := by
            simpa using hin'
          subst hb''
          exact Or.inr (processBatch_terminal env.worker b)
      · exact Or.inr hterm

/-- C4 counterexample: a per-batch completion callback that throws makes
the pool call itself fail — `processAllBatches` returns the callback's
error instead of a result array, refuting "never itself fails or rejects
for every behaviour of the optional per-batch completion callback". -/
theorem processAllBatches_callback_throw_counterexample :
    processAllBatches [⟨0, ["i"], BatchStatus.pending, none, none, 0⟩]
      [⟨0, ["i"], BatchStatus.pending, none, none, 0⟩]
      { worker := fun _ _ => Except.ok "done",
        onBatchComplete := some fun _ _ => Except.error "boom" } = Except.error "boom" := rfl

/-- C4 (amended): for every worker behaviour, every completion order and
any per-batch completion callback that does not itself throw, the pool
call never fails: it resolves with every processed batch in a terminal
state (completed or failed, never pending/processing), one terminal batch
per input batch, and completed + failed equal to the batch count. -/
theorem processAllBatches_resolves (batches order : List SwarmBatch) (env : PoolEnv)
    (hperm : order.Perm batches)
    (hcb : ∀ cb, env.onBatchComplete = some cb → ∀ r pr, cb r pr = Except.ok ()) :
    ∃ st, processAllBatches batches order env = Except.ok st ∧
      st.completed + st.failed = batches.length ∧
      st.batchesDone.length = batches.length ∧
      ∀ b ∈ st.batchesDone,
        b.status = BatchStatus.completed ∨ b.status = BatchStatus.failed := by
  obtain ⟨st', h', hcount, hlen, hmem⟩ :=
    runPool_ok_of_cb_ok env hcb batches.length order
      { results := List.replicate batches.length none, batchesDone := [],
        completed := 0, failed := 0 }
  refine ⟨st', h', ?_, ?_, ?_⟩
  · rw [hcount]
    simp [hperm.length_eq]
  · rw [hlen]
    simp [hperm.length_eq]
  · intro b hb
    rcases hmem b hb with hin | hterm
    · simp at hin
    · exact hterm

theorem processAllBatches_resolves_witness :
    ([(⟨0, ["i"], BatchStatus.pending, none, none, 0⟩ : SwarmBatch)].Perm
      [⟨0, ["i"], BatchStatus.pending, none, none, 0⟩]) ∧
    (∃ st, processAllBatches [⟨0, ["i"], BatchStatus.pending, none, none, 0⟩]
        [⟨0, ["i"], BatchStatus.pending, none, none, 0⟩]
        { worker := fun _ _ => Except.error "down", onBatchComplete := none } =
          Except.ok st ∧
      st.completed + st.failed = 1 ∧
      st.batchesDone.length = 1 ∧
      ∀ b ∈ st.batchesDone,
        b.status = BatchStatus.completed ∨ b.status = BatchStatus.failed) :=
  ⟨List.Perm.refl _,
    processAllBatches_resolves [⟨0, ["i"], BatchStatus.pending, none, none, 0⟩]
      [⟨0, ["i"], BatchStatus.pending, none, none, 0⟩]
      { worker := fun _ _ => Except.error "down", onBatchComplete := none }
      (List.Perm.refl _) (fun cb hc => by simp at hc)⟩

theorem processBatch_batchIndex (w : Nat → Nat → Except String String) (b : SwarmBatch) :
    (processBatch w b).2.batchIndex = b.index := rfl

theorem list_getD_set_self {α : Type} (l : List α) (i : Nat) (a d : α) (h : i < l.length) :
    (l.set i a).getD i d = a := by
  induction l generalizing i with
  | nil => simp at h
  | cons x xs ih =>
    cases i with
    | zero => simp [List.set_cons_zero]
    | succ j =>
      rw [List.set_cons_succ, List.getD_cons_succ]
      exact ih j (by simpa using h)

theorem list_getD_set_ne {α : Type} (l : List α) (i j : Nat) (a d : α) (h : i ≠ j) :
    (l.set i a).getD j d = l.getD j d := by
  induction l generalizing i j with
  | nil => simp
  | cons x xs ih =>
    cases i with
    | zero =>
      cases j with
      | zero => exact absurd rfl h
      | succ j' => rw [List.set_cons_zero, List.getD_cons_succ, List.getD_cons_succ]
    | succ i' =>
      cases j with
      | zero => rw [List.set_cons_succ, List.getD_cons_zero, List.getD_cons_zero]
      | succ j' =>
        rw [List.set_cons_succ, List.getD_cons_succ, List.getD_cons_succ]
        exact ih i' j' (fun e => h (by rw [e]))

theorem runPool_results_invariant (env : PoolEnv) (total : Nat) :
    ∀ (todo : List SwarmBatch) (st st' : PoolState),
      runPool env total todo st = Except.ok st' →
      st'.results.length = st.results.length ∧
      (∀ i, (∃ r, st.results.getD i none = some r ∧ r.batchIndex = i) →
        ∃ r, st'.results.getD i none = some r ∧ r.batchIndex = i) ∧
      (∀ b ∈ todo, b.index < st.results.length →
        ∃ r, st'.results.getD b.index none = some r ∧ r.batchIndex = b.index) := by
  intro todo
  induction todo with
  | nil =>
    intro st st' h
    rw [runPool] at h
    injection h with h
    subst h
    exact ⟨rfl, fun i hi => hi, fun b hb => absurd hb (List.not_mem_nil b)⟩
  | cons b bs ih =>
    intro st st' h
    rw [runPool] at h
    cases hstep : poolStep env total st b with
    | error e => rw [hstep] at h; simp at h
    | ok st1 =>
      rw [hstep] at h
      obtain ⟨hres, _, _⟩ := poolStep_ok_shape env total st b st1 hstep
      obtain ⟨hlen', hpres', hcov'⟩ := ih st1 st' h
      have hlen1 : st1.results.length = st.results.length := by
        rw [hres, List.length_set]
      have hstep_pres : ∀ i, (∃ r, st.results.getD i none = some r ∧ r.batchIndex = i) →
          ∃ r, st1.results.getD i none = some r ∧ r.batchIndex = i := by
        intro i hi
        rw [hres]
        by_cases hib : b.index = i
        · subst hib
          by_cases hlt : b.index < st.results.length
          · exact ⟨(processBatch env.worker b).2,
              by rw [list_getD_set_self _ _ _ _ hlt], processBatch_batchIndex env.worker b⟩
          · rw [List.set_eq_of_length_le (by omega)]
            exact hi
        · rw [list_getD_set_ne _ _ _ _ _ hib]
          exact hi
      refine ⟨by rw [hlen', hlen1], fun i hi => hpres' i (hstep_pres i hi), ?_⟩
      intro b' hb' hbi
      rcases List.mem_cons.mp hb' with rfl | hmem
      · apply hpres'
        rw [hres]
        exact ⟨(processBatch env.worker b').2,
          by rw [list_getD_set_self _ _ _ _ hbi], processBatch_batchIndex env.worker b'⟩
      · exact hcov' b' hmem (by rw [hlen1]; exact hbi)

/-- C2: whenever the batch indices are exactly 0..n-1, for every worker
behaviour and every completion order (any permutation of the batch list),
the results array returned by a resolving `processAllBatches` run has
length n and the result stored at position i has `batchIndex = i` for
every i < n — array position and batch index always agree, independent of
the order in which batches complete. -/
theorem processAllBatches_results_indexed (batches order : List SwarmBatch)
    (env : PoolEnv) (hperm : order.Perm batches)
    (hidx : (batches.map SwarmBatch.index).Perm (List.range batches.length))
    (st : PoolState) (hok : processAllBatches batches order env = Except.ok st) :
    st.results.length = batches.length ∧
    ∀ i, i < batches.length →
      ∃ r, st.results.getD i none = some r ∧ r.batchIndex = i := by
  have hok' : runPool env batches.length order
      { results := List.replicate batches.length none, batchesDone := [],
        completed := 0, failed := 0 } = Except.ok st := hok
  obtain ⟨hlen, hpres, hcov⟩ :=
    runPool_results_invariant env batches.length order _ st hok'
  constructor
  · rw [hlen]
    exact List.length_replicate _ _
  · intro i hi
    have hir : i ∈ List.range batches.length := List.mem_range.mpr hi
    have him : i ∈ batches.map SwarmBatch.index := (hidx.mem_iff).mpr hir
    obtain ⟨b, hb, hbi⟩ := List.mem_map.mp him
    have hbo : b ∈ order := (hperm.mem_iff).mpr hb
    have hc := hcov b hbo (by rw [List.length_replicate, hbi]; exact hi)
    rw [hbi] at hc
    exact hc

theorem processAllBatches_results_indexed_witness :
    (([(⟨1, ["x1"], BatchStatus.pending, none, none, 0⟩ : SwarmBatch),
        ⟨0, ["x0"], BatchStatus.pending, none, none, 0⟩].Perm
      [⟨0, ["x0"], BatchStatus.pending, none, none, 0⟩,
        ⟨1, ["x1"], BatchStatus.pending, none, none, 0⟩]) ∧
      (([(⟨0, ["x0"], BatchStatus.pending, none, none, 0⟩ : SwarmBatch),
          ⟨1, ["x1"], BatchStatus.pending, none, none, 0⟩].map SwarmBatch.index).Perm
        (List.range 2))) ∧
    ((PoolState.mk
        [some ⟨0, true, some "r", none, 0⟩, some ⟨1, true, some "r", none, 0⟩]
        [⟨1, ["x1"], BatchStatus.completed, some "r", none, 0⟩,
          ⟨0, ["x0"], BatchStatus.completed, some "r", none, 0⟩] 2 0).results.length = 2 ∧
      ∀ i, i < 2 →
        ∃ r, (PoolState.mk
            [some ⟨0, true, some "r", none, 0⟩, some ⟨1, true, some "r", none, 0⟩]
            [⟨1, ["x1"], BatchStatus.completed, some "r", none, 0⟩,
              ⟨0, ["x0"], BatchStatus.completed, some "r", none, 0⟩] 2 0).results.getD i none
          = some r ∧ r.batchIndex = i) :=
  ⟨⟨by decide, by decide⟩,
    processAllBatches_results_indexed
      [⟨0, ["x0"], BatchStatus.pending, none, none, 0⟩,
        ⟨1, ["x1"], BatchStatus.pending, none, none, 0⟩]
      [⟨1, ["x1"], BatchStatus.pending, none, none, 0⟩,
        ⟨0, ["x0"], BatchStatus.pending, none, none, 0⟩]
      { worker := fun _ _ => Except.ok "r", onBatchComplete := none }
      (by decide) (by decide) _ rfl⟩

/-! ## Semaphore: concurrency bound and FIFO handoff (C5) -/

theorem semReachable_invariant (m : Nat) (s : SemState) (h : SemReachable m s) :
    s.max = m ∧ s.holders.length = s.current ∧ s.current ≤ s.max := by
  induction h with
  | init => exact ⟨rfl, rfl, Nat.zero_le m⟩
  | @step s s' e hs hstep ih =>
    obtain ⟨hmax, hhold, hcur⟩ := ih
    cases hstep with
    | acquireGrant t hlt =>
      exact ⟨hmax, by simp [hhold], by simpa [hmax] using hlt⟩
    | acquireWait t hge =>
      exact ⟨hmax, hhold, hcur⟩
    | releaseEmpty t ht hq =>
      have hpos : 0 < s.holders.length := List.length_pos.mpr (by
        intro e; rw [e] at ht; exact absurd ht (List.not_mem_nil t))
      refine ⟨hmax, ?_, ?_⟩
      · show (s.holders.erase t).length = s.current - 1
        rw [List.length_erase_of_mem ht]
        omega
      · show s.current - 1 ≤ s.max
        omega
    | releaseHandoff t w ws ht hq =>
      have hpos : 0 < s.holders.length := List.length_pos.mpr (by
        intro e; rw [e] at ht; exact absurd ht (List.not_mem_nil t))
      refine ⟨hmax, ?_, ?_⟩
      · show (w :: s.holders.erase t).length = s.current - 1 + 1
        rw [List.length_cons, List.length_erase_of_mem ht]
        omega
      · show s.current - 1 + 1 ≤ s.max
        omega

/-- C5: in every state reachable from a fresh semaphore, the number of
tasks between acquire and release (the `holders` ghost list) equals the
slots-in-use counter and never exceeds the configured maximum; every
release taken while the waiter queue is nonempty hands the freed slot
directly to the head of the queue (which becomes a holder, the rest of
the queue shifting up); and every acquire that finds the semaphore full
appends the caller to the tail of the queue — together, strict FIFO
service of waiting batches. -/
theorem semaphore_bound_and_fifo (m : Nat) (s : SemState) (h : SemReachable m s) :
    s.current ≤ s.max ∧ s.holders.length = s.current ∧
    (∀ (t : Nat) (next : Option Nat) (s' : SemState),
      SemStep s (SemEvent.released t next) s' →
      ∀ w ws, s.queue = w :: ws → next = some w ∧ s'.queue = ws ∧ w ∈ s'.holders) ∧
    (∀ (t : Nat) (s' : SemState), SemStep s (SemEvent.enqueued t) s' →
      s'.queue = s.queue ++ [t]) := by
  obtain ⟨hmax, hhold, hcur⟩ := semReachable_invariant m s h
  refine ⟨hcur, hhold, ?_, ?_⟩
  · intro t next s' hstep w ws hq
    cases hstep
    · simp_all
    · simp_all
  · intro t s' hstep
    cases hstep
    rfl

theorem semaphore_bound_and_fifo_witness :
    (SemState.mk 2 2 [7] [5, 4]).current ≤ (SemState.mk 2 2 [7] [5, 4]).max ∧
    (SemState.mk 2 2 [7] [5, 4]).holders.length = (SemState.mk 2 2 [7] [5, 4]).current ∧
    (∀ (t : Nat) (next : Option Nat) (s' : SemState),
      SemStep (SemState.mk 2 2 [7] [5, 4]) (SemEvent.released t next) s' →
      ∀ w ws, (SemState.mk 2 2 [7] [5, 4]).queue = w :: ws →
        next = some w ∧ s'.queue = ws ∧ w ∈ s'.holders) ∧
    (∀ (t : Nat) (s' : SemState),
      SemStep (SemState.mk 2 2 [7] [5, 4]) (SemEvent.enqueued t) s' →
      s'.queue = (SemState.mk 2 2 [7] [5, 4]).queue ++ [t]) :=
  semaphore_bound_and_fifo 2 _
    (SemReachable.step
      (SemReachable.step
        (SemReachable.step SemReachable.init
          (SemStep.acquireGrant _ 4 (by decide)))
        (SemStep.acquireGrant _ 5 (by decide)))
      (SemStep.acquireWait _ 7 (by decide)))
